import Mathlib

/-!
Verification development for the mongoSQL query compiler
(src/mongoSQL.js): a SQL-to-MongoDB translation layer.

The definitions below are a shallow embedding of the JavaScript source:
the tokenizer, the expression parser, the parameter binder, the
WHERE/HAVING filter builders, the expression and aggregate compilers,
and the SELECT pipeline assembly of `MongoSQL._execSelect`.
JavaScript numbers are modelled by `JSNumber` (a rational for finite
values, plus NaN and Infinity markers); JavaScript objects built by the
compiler are modelled by dedicated inductive types (`MFilter`, `MExpr`,
`Stage`) whose constructors correspond one-to-one to the object shapes
the source emits.  A small model of the target document store
(comparison order, filter matching, regular-expression matching,
per-document aggregation increments) is included to interpret the
compiled artifacts; it is marked as such where it is defined.
-/

/-- Model of a JavaScript number: a finite rational, NaN, or Infinity.
Floating-point rounding and overflow are not modelled; no claim in this
development depends on them. -/
inductive JSNumber where
  | nan : JSNumber
  | inf : JSNumber
  | fin : ℚ → JSNumber
deriving DecidableEq, Repr

/-- Mirrors the JavaScript `Number.isFinite` test on a `JSNumber`. -/
def JSNumber.isFinite : JSNumber → Bool
  | .fin _ => true
  | _ => false

/-- Values that flow through the compiler: bound parameter values and
literal values, i.e. the JSON-like values of the target store. -/
inductive MVal where
  | mnull : MVal
  | mbool : Bool → MVal
  | mnum : JSNumber → MVal
  | mstr : String → MVal
  | marr : List MVal → MVal
  | mdoc : List (String × MVal) → MVal
deriving Repr

/-- Shorthand for a finite numeric value. -/
def jnum (q : ℚ) : MVal := .mnum (.fin q)

mutual
/-- Structural equality on store values. -/
def MVal.beq : MVal → MVal → Bool
  | .mnull, .mnull => true
  | .mbool a, .mbool b => a == b
  | .mnum a, .mnum b => a == b
  | .mstr a, .mstr b => a == b
  | .marr xs, .marr ys => MVal.beqList xs ys
  | .mdoc xs, .mdoc ys => MVal.beqKV xs ys
  | _, _ => false

/-- Structural equality on lists of store values. -/
def MVal.beqList : List MVal → List MVal → Bool
  | [], [] => true
  | x :: xs, y :: ys => MVal.beq x y && MVal.beqList xs ys
  | _, _ => false

/-- Structural equality on key-value lists. -/
def MVal.beqKV : List (String × MVal) → List (String × MVal) → Bool
  | [], [] => true
  | (k, x) :: xs, (l, y) :: ys => k == l && MVal.beq x y && MVal.beqKV xs ys
  | _, _ => false
end


/-- AST expression nodes, as produced by the parser in the source
(string-tagged objects such as Field, Number, Call, Binary).  The
`isNullKind` constructor stands for the tagless object produced for the
right-hand side of `IS [NOT] NULL`. -/
inductive SqlExpr where
  | num : JSNumber → SqlExpr
  | str : String → SqlExpr
  | bool : Bool → SqlExpr
  | null : SqlExpr
  | paramPos : SqlExpr
  | paramNamed : String → SqlExpr
  | field : Option String → String → SqlExpr
  | all : SqlExpr
  | call : String → List SqlExpr → SqlExpr
  | binary : String → SqlExpr → SqlExpr → SqlExpr
  | unary : String → SqlExpr → SqlExpr
  | arrayLit : List SqlExpr → SqlExpr
  | betweenR : SqlExpr → SqlExpr → SqlExpr
  | isNullKind : SqlExpr
deriving Repr

/-- The JavaScript type tag of a node, as it would appear in a template
string such as the Unsupported-expression error message.  The
`isNullKind` object carries no type tag, so interpolation renders the
text undefined. -/
def SqlExpr.typeName : SqlExpr → String
  | .num _ => "Number"
  | .str _ => "String"
  | .bool _ => "Boolean"
  | .null => "Null"
  | .paramPos => "Param"
  | .paramNamed _ => "Param"
  | .field _ _ => "Field"
  | .all => "All"
  | .call _ _ => "Call"
  | .binary _ _ _ => "Binary"
  | .unary _ _ => "Unary"
  | .arrayLit _ => "Array"
  | .betweenR _ _ => "Between"
  | .isNullKind => "undefined"

/-- One item of a SELECT list: an expression with an optional alias. -/
structure SelectCol where
  expr : SqlExpr
  alias_ : Option String
deriving Repr

/-- A table reference with an optional alias. -/
structure TableRef where
  name : String
  alias_ : Option String
deriving Repr

/-- One JOIN clause; the join kind is the string the parser stores
(INNER or LEFT). -/
structure JoinClause where
  type_ : String
  table : TableRef
  onPred : SqlExpr
deriving Repr

/-- The SELECT statement AST, mirroring the object returned by
`parseSelect`. -/
structure SelectAst where
  columns : List SelectCol
  from_ : TableRef
  joins : List JoinClause
  where_ : Option SqlExpr
  groupBy : List SqlExpr
  having : Option SqlExpr
  orderBy : List (SqlExpr × String)
  limit : Option JSNumber
  offset : Option JSNumber
deriving Repr

/-- JavaScript `a || b` on an optional string: the default is used when
the value is absent or empty (the empty string is falsy). -/
def jsOr (a : Option String) (d : String) : String :=
  match a with
  | some s => if s = "" then d else s
  | none => d

/-- Mirrors `qualifyField` from the source: the resolved table, the bare
field name, and the dotted path.  The source builds
`table.field` and strips one leading dot, which is reachable only when
the table part is falsy; the conditional below produces the same
string. -/
def qualifyPath (ftable : Option String) (fname : String) (defaultTable : String) : String :=
  let table := jsOr ftable defaultTable
  if table = "" then fname else table ++ "." ++ fname


/-- JavaScript `toUpperCase` on the ASCII range, defined structurally so
that it computes by kernel reduction. -/
def jsToUpper (s : String) : String := String.mk (s.data.map Char.toUpper)

/-- JavaScript `toLowerCase` on the ASCII range, defined structurally. -/
def jsToLower (s : String) : String := String.mk (s.data.map Char.toLower)

/-- Mirrors `projectKey`: field nodes use their name (no alias is ever
present on a parsed Field node), everything else the placeholder. -/
def projectKey : SqlExpr → String
  | .field _ n => n
  | _ => "expr"

/-- Mirrors `exprAlias` from the source. -/
def exprAlias : SqlExpr → String
  | .field _ n => n
  | .call n _ => jsToLower n
  | .all => "*"
  | _ => "expr"

/-- Mirrors `eqField` from the source. -/
def eqField (a b : SqlExpr) : Bool :=
  match a, b with
  | .field ta na, .field tb nb =>
      jsToLower (ta.getD "") == jsToLower (tb.getD "") && jsToLower na == jsToLower nb
  | _, _ => false

/-- Mirrors `isAggregate` from the source. -/
def isAggregate (name : String) : Bool :=
  ["COUNT", "SUM", "AVG", "MIN", "MAX"].contains (jsToUpper name)

/-- Mirrors `toArray` from the source. -/
def toArray (v : MVal) : List MVal :=
  match v with
  | .marr xs => xs
  | _ => [v]

/-- JavaScript `String(v)` coercion for the value kinds the compiler can
feed to `likeToRegex`.  Number formatting of non-integers is
approximated (no claim exercises it); the LIKE lowering only receives
string literals in the claims below. -/
def mvalToStr : MVal → String
  | .mstr s => s
  | .mnull => "null"
  | .mbool b => if b then "true" else "false"
  | .mnum .nan => "NaN"
  | .mnum .inf => "Infinity"
  | .mnum (.fin q) => if q.den = 1 then toString q.num else toString q
  | .marr _ => "array"
  | .mdoc _ => "object"

/-- JavaScript object-property assignment `obj[k] = v`: replaces the
value in place when the key exists, appends otherwise. -/
def objSet (kvs : List (String × α)) (k : String) (v : α) : List (String × α) :=
  if kvs.any (fun kv => kv.1 = k) then
    kvs.map (fun kv => if kv.1 = k then (k, v) else kv)
  else kvs ++ [(k, v)]

/-- The table registry: lowercased table name to backing collection
name, as populated by `registerTable`. -/
def Registry := List (String × String)

/-- Mirrors `MongoSQL._getCollection`. -/
def getCollection (reg : Registry) (t : String) : Except String String :=
  match List.lookup (jsToLower t) reg with
  | some c => .ok c
  | none => .error ("Unknown table: " ++ t)

/-- The parameter binder state: the named map, the positional list and
the positional cursor. -/
structure ParamBinder where
  named : List (String × MVal)
  positional : List MVal
  posIndex : Nat
deriving Repr

/-- Mirrors `ParamBinder.bindValue`.  The binder is threaded explicitly:
the JavaScript method mutates `posIndex`, here the updated binder is
returned.  The catch-all case mirrors `node.value ?? null` for node
kinds that carry no value. -/
def bindValue (b : ParamBinder) (node : SqlExpr) : Except String (MVal × ParamBinder) :=
  match node with
  | .paramPos =>
      if h : b.posIndex < b.positional.length then
        .ok (b.positional.get ⟨b.posIndex, h⟩, { b with posIndex := b.posIndex + 1 })
      else .error "Not enough positional params"
  | .paramNamed n =>
      match List.lookup n b.named with
      | some v => .ok (v, b)
      | none => .error ("Missing named param :" ++ n)
  | .num v => .ok (.mnum v, b)
  | .str s => .ok (.mstr s, b)
  | .bool v => .ok (.mbool v, b)
  | .null => .ok (.mnull, b)
  | .arrayLit vs => do
      let (xs, b') ← bindList b vs
      .ok (.marr xs, b')
  | .betweenR f t => do
      let (fv, b1) ← bindValue b f
      let (tv, b2) ← bindValue b1 t
      .ok (.mdoc [("from", fv), ("to", tv)], b2)
  | _ => .ok (.mnull, b)
where
  /-- Binds each element of an array literal in order. -/
  bindList (b : ParamBinder) : List SqlExpr → Except String (List MVal × ParamBinder)
  | [] => .ok ([], b)
  | v :: vs => do
      let (x, b1) ← bindValue b v
      let (xs, b2) ← bindList b1 vs
      .ok (x :: xs, b2)

/-- A compiled regular-expression condition, as in the object
`regex-and-options` that `likeToRegex` returns. -/
structure MRegex where
  pat : String
  opts : String
deriving Repr, DecidableEq

/-- The characters the source escapes in a LIKE pattern (the regex
metacharacter class in `likeToRegex`). -/
def regexMeta : List Char :=
  ['.', '*', '+', '?', '^', '$', '\x7b', '\x7d', '(', ')', '|', '[', ']', '\\']

/-- The escaping pass of `likeToRegex`: a backslash before every regex
metacharacter. -/
def escapeRegexChars (s : List Char) : List Char :=
  (s.map (fun c => if regexMeta.contains c then ['\\', c] else [c])).flatten

/-- The percent substitution pass of `likeToRegex`. -/
def replacePercent (s : List Char) : List Char :=
  (s.map (fun c => if c = '%' then ['.', '*'] else [c])).flatten

/-- The underscore substitution pass of `likeToRegex`. -/
def replaceUnderscore (s : List Char) : List Char :=
  s.map (fun c => if c = '_' then '.' else c)

/-- Mirrors `likeToRegex`: escape metacharacters, substitute percent and
underscore, anchor at both ends, case-insensitive options. -/
def likeToRegex (pattern : String) : MRegex :=
  let escaped := escapeRegexChars pattern.data
  let re := '^' :: (replaceUnderscore (replacePercent escaped) ++ ['$'])
  { pat := String.mk re, opts := "i" }

/-- A compiled find-filter document, with one constructor per object
shape `buildMatch` and `buildHaving` emit. -/
inductive MFilter where
  | empty : MFilter
  | andF : MFilter → MFilter → MFilter
  | orF : MFilter → MFilter → MFilter
  | norF : MFilter → MFilter
  | eqF : String → MVal → MFilter
  | neF : String → MVal → MFilter
  | gtF : String → MVal → MFilter
  | gteF : String → MVal → MFilter
  | ltF : String → MVal → MFilter
  | lteF : String → MVal → MFilter
  | inF : String → List MVal → MFilter
  | ninF : String → List MVal → MFilter
  | regexF : String → MRegex → MFilter
  | rangeF : String → MVal → MVal → MFilter
deriving Repr

/-- A compiled aggregation expression, with one constructor per
expression-document shape the compiler emits. -/
inductive MExpr where
  | lit : MVal → MExpr
  | fieldPath : String → MExpr
  | root : MExpr
  | varRef : String → MExpr
  | addE : MExpr → MExpr → MExpr
  | subE : MExpr → MExpr → MExpr
  | mulE : MExpr → MExpr → MExpr
  | divE : MExpr → MExpr → MExpr
  | toLowerE : MExpr → MExpr
  | toUpperE : MExpr → MExpr
  | concatE : List MExpr → MExpr
  | ifNullE : MExpr → MExpr → MExpr
  | absE : MExpr → MExpr
  | roundE : MExpr → MExpr → MExpr
  | condE : MExpr → MExpr → MExpr → MExpr
  | gtE : MExpr → MExpr → MExpr
deriving Repr

/-- A compiled group accumulator (the sum/avg/min/max documents emitted
by `toMongoAgg`). -/
inductive MAccum where
  | asum : MExpr → MAccum
  | aavg : MExpr → MAccum
  | amin : MExpr → MAccum
  | amax : MExpr → MAccum
deriving Repr

/-- One aggregation pipeline stage, with one constructor per stage
object `_execSelect` pushes. -/
inductive Stage where
  | smatch : MFilter → Stage
  | lookup : String → String → String → String → Stage
  | unwind : String → Bool → Stage
  | group : List (String × MExpr) → List (String × MAccum) → Stage
  | project : List (String × MExpr) → Stage
  | sort : List (String × Int) → Stage
  | skip : JSNumber → Stage
  | limit : JSNumber → Stage
deriving Repr

/-- Mirrors the recursive body of `buildMatch` on a present expression.
The binder is threaded in the JavaScript evaluation order; in
particular the pre-switch `bindValue(right)` happens for every leaf
operator, so a BETWEEN leaf binds its endpoints twice.  The non-NOT
unary case, where the JavaScript function falls through and returns
undefined (unreachable from the parser), is modelled as an error. -/
def buildMatchE (expr : SqlExpr) (b : ParamBinder) (defaultTable : String) :
    Except String (MFilter × ParamBinder) :=
  match expr with
  | .binary op l r =>
      if op = "AND" ∨ op = "OR" then do
        let (fa, b1) ← buildMatchE l b defaultTable
        let (fb, b2) ← buildMatchE r b1 defaultTable
        .ok (if op = "AND" then .andF fa fb else .orF fa fb, b2)
      else
        match l with
        | .field ft fn => do
            let key := qualifyPath ft fn defaultTable
            let (val, b1) ← bindValue b r
            match op with
            | "=" => .ok (.eqF key val, b1)
            | "!=" => .ok (.neF key val, b1)
            | "<>" => .ok (.neF key val, b1)
            | ">" => .ok (.gtF key val, b1)
            | ">=" => .ok (.gteF key val, b1)
            | "<" => .ok (.ltF key val, b1)
            | "<=" => .ok (.lteF key val, b1)
            | "IN" => .ok (.inF key (toArray val), b1)
            | "NOT IN" => .ok (.ninF key (toArray val), b1)
            | "LIKE" => .ok (.regexF key (likeToRegex (mvalToStr val)), b1)
            | "IS" =>
                match r with
                | .isNullKind => .ok (.eqF key .mnull, b1)
                | _ => .error "Unsupported WHERE clause"
            | "IS NOT" =>
                match r with
                | .isNullKind => .ok (.neF key .mnull, b1)
                | _ => .error "Unsupported WHERE clause"
            | "BETWEEN" =>
                match r with
                | .betweenR rf rt => do
                    let (fv, b2) ← bindValue b1 rf
                    let (tv, b3) ← bindValue b2 rt
                    .ok (.rangeF key fv tv, b3)
                | _ => .ok (.rangeF key .mnull .mnull, b1)
            | _ => .error ("Unsupported operator in WHERE: " ++ op)
        | _ => .error "Unsupported WHERE clause"
  | .unary op e =>
      if op = "NOT" then do
        let (inner, b1) ← buildMatchE e b defaultTable
        .ok (.norF inner, b1)
      else .error "buildMatch returned undefined"
  | _ => .error "Unsupported WHERE expression"

/-- Mirrors `buildMatch` including the absent-expression short-circuit
that returns the empty filter. -/
def buildMatch (expr : Option SqlExpr) (b : ParamBinder) (defaultTable : String) :
    Except String (MFilter × ParamBinder) :=
  match expr with
  | none => .ok (.empty, b)
  | some e => buildMatchE e b defaultTable

/-- The built-in function table type: uppercase name to lowering rule
over the compiled arguments. -/
def FnTable := List (String × (List MExpr → MExpr))

/-- Mirrors `buildBuiltinFunctions`.  Missing arguments (JavaScript
undefined through destructuring) are modelled as null literals; the
one-argument ROUND branch emits the internal-placeholder variable
reference exactly as the source does. -/
def buildBuiltinFunctions : FnTable :=
  [ ("LOWER", fun args => .toLowerE (args.getD 0 (.lit .mnull))),
    ("UPPER", fun args => .toUpperE (args.getD 0 (.lit .mnull))),
    ("CONCAT", fun args => .concatE args),
    ("COALESCE", fun args => .ifNullE (args.getD 0 (.lit .mnull)) (args.getD 1 (.lit .mnull))),
    ("ABS", fun args => .absE (args.getD 0 (.lit .mnull))),
    ("ROUND", fun args =>
      match args.get? 1 with
      | some d => .roundE (args.getD 0 (.lit .mnull)) d
      | none => .roundE (.varRef "_internal") (.lit (jnum 0))) ]

mutual
/-- Mirrors `toMongoExpr`.  The `functions` argument is optional because
`toMongoAgg` calls `toMongoExpr` without it; a Call node compiled in
that mode reproduces the resulting JavaScript TypeError as an error.
The `joins` argument is accepted and unused, as in the source. -/
def toMongoExpr (expr : SqlExpr) (main : TableRef) (joins : List JoinClause)
    (b : ParamBinder) (functions : Option FnTable) :
    Except String (MExpr × ParamBinder) :=
  match expr with
  | .num v => .ok (.lit (.mnum v), b)
  | .str s => .ok (.lit (.mstr s), b)
  | .bool v => .ok (.lit (.mbool v), b)
  | .paramPos => do
      let (v, b') ← bindValue b .paramPos
      .ok (.lit v, b')
  | .paramNamed n => do
      let (v, b') ← bindValue b (.paramNamed n)
      .ok (.lit v, b')
  | .field t n =>
      .ok (.fieldPath (qualifyPath t n (jsOr main.alias_ main.name)), b)
  | .all => .ok (.root, b)
  | .call name args =>
      match functions with
      | none => .error "TypeError: functions is undefined"
      | some fns =>
          match List.lookup (jsToUpper name) fns with
          | none => .error ("Unknown function: " ++ name)
          | some fn => do
              let (argVals, b') ← toMongoExprList args main joins b functions
              .ok (fn argVals, b')
  | .binary op l r => do
      let (lv, b1) ← toMongoExpr l main joins b functions
      let (rv, b2) ← toMongoExpr r main joins b1 functions
      match op with
      | "+" => .ok (.addE lv rv, b2)
      | "-" => .ok (.subE lv rv, b2)
      | "*" => .ok (.mulE lv rv, b2)
      | "/" => .ok (.divE lv rv, b2)
      | _ => .error ("Unsupported binary op in projection: " ++ op)
  | e => .error ("Unsupported expression in projection: " ++ e.typeName)

/-- Compiles a list of call arguments left to right, threading the
binder. -/
def toMongoExprList (args : List SqlExpr) (main : TableRef) (joins : List JoinClause)
    (b : ParamBinder) (functions : Option FnTable) :
    Except String (List MExpr × ParamBinder) :=
  match args with
  | [] => .ok ([], b)
  | a :: rest => do
      let (v, b1) ← toMongoExpr a main joins b functions
      let (vs, b2) ← toMongoExprList rest main joins b1 functions
      .ok (v :: vs, b2)
end

/-- Mirrors `toMongoAgg`.  The inner `toMongoExpr` calls omit the
functions table, as the source does; a non-Call argument to this
function (impossible from `_execSelect`) is modelled as the TypeError
the JavaScript property access would raise. -/
def toMongoAgg (c : SqlExpr) (main : TableRef) (joins : List JoinClause)
    (b : ParamBinder) : Except String (MAccum × ParamBinder) :=
  match c with
  | .call name args =>
      let uname := jsToUpper name
      if uname = "COUNT" then
        match args.head? with
        | none => .ok (.asum (.lit (jnum 1)), b)
        | some .all => .ok (.asum (.lit (jnum 1)), b)
        | some a => do
            let (e, b') ← toMongoExpr a main joins b none
            .ok (.asum (.condE (.gtE e (.lit .mnull)) (.lit (jnum 1)) (.lit (jnum 0))), b')
      else if uname = "SUM" then
        match args.head? with
        | none => .error "TypeError: argument is undefined"
        | some a => do
            let (e, b') ← toMongoExpr a main joins b none
            .ok (.asum e, b')
      else if uname = "AVG" then
        match args.head? with
        | none => .error "TypeError: argument is undefined"
        | some a => do
            let (e, b') ← toMongoExpr a main joins b none
            .ok (.aavg e, b')
      else if uname = "MIN" then
        match args.head? with
        | none => .error "TypeError: argument is undefined"
        | some a => do
            let (e, b') ← toMongoExpr a main joins b none
            .ok (.amin e, b')
      else if uname = "MAX" then
        match args.head? with
        | none => .error "TypeError: argument is undefined"
        | some a => do
            let (e, b') ← toMongoExpr a main joins b none
            .ok (.amax e, b')
      else .error ("Unsupported aggregate " ++ uname)
  | _ => .error "TypeError: callExpr has no name"

/-- Mirrors `buildHaving`: the right-hand value is bound first, the key
is derived from the left side with no membership check against the
group keys or aggregate aliases. -/
def buildHaving (expr : SqlExpr) (b : ParamBinder) :
    Except String (MFilter × ParamBinder) :=
  match expr with
  | .binary op l r => do
      let (rightVal, b') ← bindValue b r
      let key :=
        match l with
        | .call n _ => jsToLower n
        | .field _ _ => projectKey l
        | _ => "expr"
      match op with
      | "=" => .ok (.eqF key rightVal, b')
      | "!=" => .ok (.neF key rightVal, b')
      | "<>" => .ok (.neF key rightVal, b')
      | ">" => .ok (.gtF key rightVal, b')
      | ">=" => .ok (.gteF key rightVal, b')
      | "<" => .ok (.ltF key rightVal, b')
      | "<=" => .ok (.lteF key rightVal, b')
      | _ => .error "Unsupported HAVING operator"
  | _ => .error "Unsupported HAVING"

/-- Truthiness of the wildcard test in `_execSelect`: the select list is
one item whose expression is the `*` node. -/
def wildcardOnly (cols : List SelectCol) : Bool :=
  match cols with
  | [c] => match c.expr with | .all => true | _ => false
  | _ => false

/-- The WHERE block of `_execSelect`: one match stage when a WHERE
expression is present, nothing otherwise. -/
def whereStages (w : Option SqlExpr) (b : ParamBinder) (tbl : String) :
    Except String (List Stage × ParamBinder) :=
  match w with
  | some e => do
      let (f, b') ← buildMatchE e b tbl
      .ok ([Stage.smatch f], b')
  | none => .ok ([], b)

/-- One iteration of the join loop in `_execSelect`: kind check,
equality-of-fields check, then the lookup stage (local and foreign keys
are the bare field names of the two sides of the ON predicate, the
target is the registered collection, the output field is the join
alias) followed by the unwind stage whose null-and-empty preservation
flag is false exactly for INNER joins. -/
def compileJoin (reg : Registry) (j : JoinClause) : Except String (List Stage) :=
  if j.type_ ≠ "INNER" ∧ j.type_ ≠ "LEFT" then
    .error ("Unsupported JOIN type: " ++ j.type_)
  else
    match j.onPred with
    | .binary "=" (.field _ ln) (.field _ rn) => do
        let jAlias := jsOr j.table.alias_ j.table.name
        let coll ← getCollection reg j.table.name
        if j.type_ = "INNER" then
          .ok [Stage.lookup coll ln rn jAlias, Stage.unwind ("$" ++ jAlias) false]
        else
          .ok [Stage.lookup coll ln rn jAlias, Stage.unwind ("$" ++ jAlias) true]
    | _ => .error "JOIN ... ON must be equality between two fields"

/-- The join loop of `_execSelect` over the whole join list, in
declaration order. -/
def compileJoins (reg : Registry) : List JoinClause → Except String (List Stage)
  | [] => .ok []
  | j :: rest => do
      let s ← compileJoin reg j
      let r ← compileJoins reg rest
      .ok (s ++ r)

/-- The GROUP BY key object: one entry per group-by expression, keyed by
`projectKey`, assigned in loop order with object-assignment overwrite
semantics. -/
def groupIdExpr (main : TableRef) (joins : List JoinClause) (fns : FnTable) :
    List (String × MExpr) → List SqlExpr → ParamBinder →
    Except String (List (String × MExpr) × ParamBinder)
  | acc, [], b => .ok (acc, b)
  | acc, g :: rest, b => do
      let (e, b1) ← toMongoExpr g main joins b (some fns)
      groupIdExpr main joins fns (objSet acc (projectKey g) e) rest b1

/-- The aggregate-accumulator object of the group stage: one entry per
aggregate Call in the select list, keyed by the select alias or the
derived name. -/
def groupAccums (main : TableRef) (joins : List JoinClause) :
    List (String × MAccum) → List SelectCol → ParamBinder →
    Except String (List (String × MAccum) × ParamBinder)
  | acc, [], b => .ok (acc, b)
  | acc, sel :: rest, b =>
      match sel.expr with
      | .call n _ =>
          if isAggregate n then do
            let key := jsOr sel.alias_ (exprAlias sel.expr)
            let (a, b1) ← toMongoAgg sel.expr main joins b
            groupAccums main joins (objSet acc key a) rest b1
          else groupAccums main joins acc rest b
      | _ => groupAccums main joins acc rest b

/-- The HAVING block inside the GROUP BY branch: one match stage when a
HAVING expression is present. -/
def havingStages (h : Option SqlExpr) (b : ParamBinder) :
    Except String (List Stage × ParamBinder) :=
  match h with
  | some e => do
      let (f, b') ← buildHaving e b
      .ok ([Stage.smatch f], b')
  | none => .ok ([], b)

/-- The re-projection stage of the GROUP BY branch: every group key is
flattened from under the group identity, and every aggregate output
field is included with the literal inclusion flag 1. -/
def groupProject (idExpr : List (String × MExpr)) (cols : List SelectCol) :
    List (String × MExpr) :=
  let base := idExpr.foldl
    (fun acc kv => objSet acc kv.1 (MExpr.fieldPath ("_id." ++ kv.1))) []
  cols.foldl
    (fun acc sel =>
      match sel.expr with
      | .call n _ =>
          if isAggregate n then
            objSet acc (jsOr sel.alias_ (exprAlias sel.expr)) (MExpr.lit (jnum 1))
          else acc
      | _ => acc) base

/-- The simple-projection loop of the no-GROUP-BY branch. -/
def projectFields (main : TableRef) (joins : List JoinClause) (fns : FnTable) :
    List (String × MExpr) → List SelectCol → ParamBinder →
    Except String (List (String × MExpr) × ParamBinder)
  | acc, [], b => .ok (acc, b)
  | acc, sel :: rest, b => do
      let key := jsOr sel.alias_ (exprAlias sel.expr)
      let (e, b1) ← toMongoExpr sel.expr main joins b (some fns)
      projectFields main joins fns (objSet acc key e) rest b1

/-- The grouping-or-projection block of `_execSelect`: with GROUP BY, a
group stage, an optional HAVING match stage, and the re-projection
stage; without GROUP BY, a single projection stage, omitted entirely
for the single-wildcard select list.  (The source would let an
aggregate alias `_id` overwrite the group identity; the model keeps the
identity and the accumulators in separate components, which no claim
distinguishes.) -/
def coreStages (ast : SelectAst) (fns : FnTable) (b : ParamBinder) :
    Except String (List Stage × ParamBinder) :=
  if ast.groupBy.isEmpty then
    if wildcardOnly ast.columns then .ok ([], b)
    else do
      let (fields, b1) ← projectFields ast.from_ ast.joins fns [] ast.columns b
      .ok ([Stage.project fields], b1)
  else do
    let (idExpr, b1) ← groupIdExpr ast.from_ ast.joins fns [] ast.groupBy b
    let (accums, b2) ← groupAccums ast.from_ ast.joins [] ast.columns b1
    let (hs, b3) ← havingStages ast.having b2
    .ok ([Stage.group idExpr accums] ++ hs ++
         [Stage.project (groupProject idExpr ast.columns)], b3)

/-- The ORDER BY sort-key object of `_execSelect`. -/
def sortKeys (obs : List (SqlExpr × String)) : List (String × Int) :=
  obs.foldl
    (fun acc ob =>
      let key := match ob.1 with | .field _ _ => projectKey ob.1 | _ => exprAlias ob.1
      objSet acc key (if ob.2 = "DESC" then (-1 : Int) else 1)) []

/-- The ORDER BY block of `_execSelect`. -/
def sortStages (ast : SelectAst) : List Stage :=
  if ast.orderBy.isEmpty then [] else [Stage.sort (sortKeys ast.orderBy)]

/-- The OFFSET and LIMIT block of `_execSelect`: a skip stage, then a
limit stage, each guarded by `Number.isFinite`. -/
def pageStages (ast : SelectAst) : List Stage :=
  (match ast.offset with
   | some n => if n.isFinite then [Stage.skip n] else []
   | none => []) ++
  (match ast.limit with
   | some n => if n.isFinite then [Stage.limit n] else []
   | none => [])

/-- Mirrors `MongoSQL._execSelect` up to the point of execution: the
main collection resolution and the assembled aggregation pipeline, with
the parameter binder threaded in the JavaScript evaluation order
(WHERE, then joins, then group or projection). -/
def execSelect (reg : Registry) (fns : FnTable) (ast : SelectAst) (b0 : ParamBinder) :
    Except String (String × List Stage × ParamBinder) := do
  let coll ← getCollection reg ast.from_.name
  let mainScope := jsOr ast.from_.alias_ ast.from_.name
  let (ws, b1) ← whereStages ast.where_ b0 mainScope
  let js ← compileJoins reg ast.joins
  let (core, b2) ← coreStages ast fns b1
  .ok (coll, ws ++ js ++ core ++ sortStages ast ++ pageStages ast, b2)

/-- Model of the target store: type rank in the BSON comparison order
for the value kinds in `MVal` (null below numbers below strings below
objects below arrays below booleans). -/
def MVal.rank : MVal → Nat
  | .mnull => 0
  | .mnum _ => 1
  | .mstr _ => 2
  | .mdoc _ => 3
  | .marr _ => 4
  | .mbool _ => 5

/-- Model of the target store: strict numeric order, with NaN lowest and
Infinity highest. -/
def JSNumber.blt : JSNumber → JSNumber → Bool
  | .nan, .nan => false
  | .nan, _ => true
  | _, .nan => false
  | .fin a, .fin b => a < b
  | .fin _, .inf => true
  | .inf, _ => false

/-- Model of the target store: strict comparison of two values, by type
rank and then by value for scalars.  Equal-rank composite values are
ordered only by equality; no claim compares unequal composites. -/
def MVal.mlt (a b : MVal) : Bool :=
  if a.rank < b.rank then true
  else if b.rank < a.rank then false
  else
    match a, b with
    | .mnum x, .mnum y => x.blt y
    | .mstr x, .mstr y => x < y
    | .mbool x, .mbool y => !x && y
    | _, _ => false

/-- Model of the target store: non-strict comparison. -/
def MVal.mleq (a b : MVal) : Bool := MVal.beq a b || MVal.mlt a b


/-- A stored document: the field paths the compiled commands key on,
mapped to values.  Dotted-path resolution into nested documents is
modelled by direct lookup on the path string, which is adequate for
every claim below. -/
def MDoc := List (String × MVal)

/-- Model of the target store: reading a field path of a document; a
missing path reads as null, as it does in aggregation comparisons. -/
def docGet (d : MDoc) (k : String) : MVal :=
  (List.lookup k d).getD .mnull

/-- Model of the target store: boolean coercion in conditional
expressions (null, zero and NaN are falsy). -/
def truthy : MVal → Bool
  | .mnull => false
  | .mbool b => b
  | .mnum .nan => false
  | .mnum .inf => true
  | .mnum (.fin q) => q ≠ 0
  | .mstr _ => true
  | .marr _ => true
  | .mdoc _ => true

/-- Model of the target store: evaluating a compiled aggregation
expression against one document.  The claims below exercise literals,
field paths, the conditional and the greater-than comparison; the
remaining operators (arithmetic, string functions) evaluate to null
here, and no claim depends on them. -/
def evalMExpr : MExpr → MDoc → MVal
  | .lit v, _ => v
  | .fieldPath p, d => docGet d p
  | .condE c t e, d => if truthy (evalMExpr c d) then evalMExpr t d else evalMExpr e d
  | .gtE a b, d => .mbool (MVal.mlt (evalMExpr b d) (evalMExpr a d))
  | .ifNullE a b, d =>
      match evalMExpr a d with
      | .mnull => evalMExpr b d
      | v => v
  | _, _ => .mnull

/-- Model of the target store: the value one document contributes to a
group accumulator (for a sum accumulator, the summand). -/
def aggIncr : MAccum → MDoc → MVal
  | .asum e, d => evalMExpr e d
  | .aavg e, d => evalMExpr e d
  | .amin e, d => evalMExpr e d
  | .amax e, d => evalMExpr e d

/-- One parsed regular-expression atom of the anchored patterns the
compiler emits: a literal character, the any-character dot, or the
dot-star sequence wildcard. -/
inductive RAtom where
  | lit : Char → RAtom
  | dotAny : RAtom
  | starAny : RAtom
deriving Repr, DecidableEq

/-- Parses the body of an emitted pattern (between the anchors) into
atoms: a backslash escapes the next character into a literal, a dot
followed by a star is the sequence wildcard, a bare dot matches any one
character, and any other character is a literal. -/
def parseAtoms : List Char → Option (List RAtom)
  | [] => some []
  | '\\' :: [] => none
  | '\\' :: c :: rest => (parseAtoms rest).map (RAtom.lit c :: ·)
  | '.' :: '*' :: rest => (parseAtoms rest).map (RAtom.starAny :: ·)
  | '.' :: rest => (parseAtoms rest).map (RAtom.dotAny :: ·)
  | c :: rest => (parseAtoms rest).map (RAtom.lit c :: ·)

/-- Model of the target store: matching a whole character sequence
against a sequence of atoms. -/
def matchAtoms : List RAtom → List Char → Bool
  | [], [] => true
  | [], _ :: _ => false
  | .lit _ :: _, [] => false
  | .lit c :: as, d :: ds => (c == d) && matchAtoms as ds
  | .dotAny :: _, [] => false
  | .dotAny :: as, _ :: ds => matchAtoms as ds
  | .starAny :: as, [] => matchAtoms as []
  | .starAny :: as, d :: ds =>
      matchAtoms as (d :: ds) || matchAtoms (RAtom.starAny :: as) ds
termination_by as l => (l.length, as.length)

/-- Strips the start and end anchors the compiler places around every
emitted pattern. -/
def stripAnchors : List Char → Option (List Char)
  | '^' :: rest => if rest.getLast? = some '$' then some rest.dropLast else none
  | _ => none

/-- Lowercases the literal atoms for case-insensitive matching. -/
def lowerAtom : RAtom → RAtom
  | .lit c => .lit c.toLower
  | a => a

/-- Model of the target store: whether a string matches a compiled
regular-expression condition.  Only the anchored patterns the compiler
emits are given meaning; the case-insensitive option lowercases both
the pattern literals and the subject. -/
def regexAccepts (r : MRegex) (s : String) : Bool :=
  let ci := r.opts.data.contains 'i'
  match stripAnchors r.pat.data with
  | none => false
  | some body =>
      match parseAtoms body with
      | none => false
      | some atoms =>
          matchAtoms (if ci then atoms.map lowerAtom else atoms)
            (if ci then s.data.map Char.toLower else s.data)

/-- Model of the target store: evaluating a compiled find filter against
one document. -/
def matchFilter : MFilter → MDoc → Bool
  | .empty, _ => true
  | .andF a b, d => matchFilter a d && matchFilter b d
  | .orF a b, d => matchFilter a d || matchFilter b d
  | .norF a, d => !matchFilter a d
  | .eqF k v, d => MVal.beq (docGet d k) v
  | .neF k v, d => !MVal.beq (docGet d k) v
  | .gtF k v, d => MVal.mlt v (docGet d k)
  | .gteF k v, d => MVal.mleq v (docGet d k)
  | .ltF k v, d => MVal.mlt (docGet d k) v
  | .lteF k v, d => MVal.mleq (docGet d k) v
  | .inF k vs, d => vs.any (fun v => MVal.beq (docGet d k) v)
  | .ninF k vs, d => !vs.any (fun v => MVal.beq (docGet d k) v)
  | .regexF k r, d =>
      match docGet d k with
      | .mstr s => regexAccepts r s
      | _ => false
  | .rangeF k lo hi, d => MVal.mleq lo (docGet d k) && MVal.mleq (docGet d k) hi

/-- One lexical token, mirroring the tagged token objects of the
source tokenizer. -/
inductive Token where
  | eof : Token
  | str : String → Token
  | num : String → Token
  | ident : String → Token
  | paramNamed : String → Token
  | paramPos : Token
  | op : String → Token
deriving Repr, DecidableEq

/-- The whitespace class of the tokenizer (the ASCII part of the
JavaScript whitespace regex; no statement in any claim contains other
whitespace). -/
def jsIsSpace (c : Char) : Bool :=
  [' ', '\t', '\n', '\r', '\x0b', '\x0c'].contains c

/-- Identifier start class of the tokenizer. -/
def isIdentStart (c : Char) : Bool :=
  ('A' ≤ c && c ≤ 'Z') || ('a' ≤ c && c ≤ 'z') || c = '_'

/-- Identifier continuation class of the tokenizer. -/
def isIdentCont (c : Char) : Bool :=
  ('A' ≤ c && c ≤ 'Z') || ('a' ≤ c && c ≤ 'z') || ('0' ≤ c && c ≤ '9') || c = '_' || c = '$'

/-- Digit class of the tokenizer. -/
def isDigitCh (c : Char) : Bool := '0' ≤ c && c ≤ '9'

/-- The block-comment scan: consume up to and past the closing star
slash delimiter, or everything when it never appears (the source then
moves its index past the end, and the following read reports
end-of-input). -/
def dropBlockComment : List Char → List Char
  | [] => []
  | c :: rest =>
      match c, rest with
      | '*', '/' :: r2 => r2
      | _, _ => dropBlockComment rest



/-- The leading loop of `Tokenizer.next`: skip whitespace, line
comments and block comments until real input (or the end) is
reached. -/
def skipTriviaGo : Nat → List Char → List Char
  | 0, s => s
  | fuel + 1, s =>
      match s with
      | [] => []
      | c :: rest =>
          if jsIsSpace c then skipTriviaGo fuel rest
          else if c = '-' ∧ rest.head? = some '-' then
            skipTriviaGo fuel ((rest.drop 1).dropWhile (fun x => x ≠ '\n'))
          else if c = '/' ∧ rest.head? = some '*' then
            skipTriviaGo fuel (dropBlockComment (rest.drop 1))
          else c :: rest

/-- Entry point of the trivia loop.  Every iteration consumes at least
one character, so a fuel of the input length plus one is never
exhausted and the zero-fuel fallback is unreachable. -/
def skipTrivia (s : List Char) : List Char := skipTriviaGo (s.length + 1) s

/-- The string-literal loop of `Tokenizer.next`: consume until the
closing quote, a backslash taking the next character verbatim.  When a
backslash is the final character, the source appends the out-of-bounds
read to the value, which JavaScript string concatenation renders as the
text undefined; the loop then stops at end-of-input.  Returns the value
and the remaining input. -/
def readStringLit (q : Char) : List Char → (List Char × List Char)
  | [] => ([], [])
  | c :: rest =>
      if c = '\\' then
        match rest with
        | [] => ("undefined".data, [])
        | e :: r2 =>
            let (v, r) := readStringLit q r2
            (e :: v, r)
      else if c = q then ([], rest)
      else
        let (v, r) := readStringLit q rest
        (c :: v, r)

/-- Whether the characters after an opening quote contain no matching
closing quote, reading escapes the way the tokenizer loop does. -/
def noCloser (q : Char) : List Char → Bool
  | [] => true
  | c :: rest =>
      if c = '\\' then
        match rest with
        | [] => true
        | _ :: r2 => noCloser q r2
      else c ≠ q && noCloser q rest

/-- Escape resolution as the source performs it, including the
undefined-text append for a dangling final backslash. -/
def jsResolve : List Char → List Char
  | [] => []
  | c :: rest =>
      if c = '\\' then
        match rest with
        | [] => "undefined".data
        | e :: r2 => e :: jsResolve r2
      else c :: jsResolve rest

/-- Modelled from the claim wording: the remaining characters with
escape markers resolved (a dangling final escape marker contributes
nothing). -/
def specResolve : List Char → List Char
  | [] => []
  | c :: rest =>
      if c = '\\' then
        match rest with
        | [] => []
        | e :: r2 => e :: specResolve r2
      else c :: specResolve rest

/-- Whether the input ends in an unconsumed escape marker. -/
def noDanglingEscape : List Char → Bool
  | [] => true
  | c :: rest =>
      if c = '\\' then
        match rest with
        | [] => false
        | _ :: r2 => noDanglingEscape r2
      else noDanglingEscape rest

/-- Digit-string value. -/
def digitsVal (ds : List Char) : Nat :=
  ds.foldl (fun a c => a * 10 + (c.toNat - '0'.toNat)) 0

/-- JavaScript `Number(...)` on a maximal digits-and-dots run as the
tokenizer produces: an exact rational for at most one dot, NaN for more
(overflow to Infinity for astronomically long literals is not
modelled). -/
def jsNumberOfString (s : List Char) : JSNumber :=
  match s.splitOn '.' with
  | [a] => .fin (digitsVal a)
  | [a, b] => .fin ((digitsVal a : ℚ) + (digitsVal b : ℚ) / (10 ^ b.length : ℚ))
  | _ => .nan

/-- The two-character operators of the tokenizer. -/
def twoCharOps : List String := [">=", "<=", "<>", "!="]

/-- The single-character operator set of the tokenizer. -/
def singleOps : List Char := ",().=*+/-<>".data

/-- Mirrors `Tokenizer.next` as a function from remaining input to the
next token and the rest of the input (the source keeps an index into a
fixed string; consuming a list prefix is the same reading). -/
def tokNext (s0 : List Char) : Except String (Token × List Char) :=
  match skipTrivia s0 with
  | [] => .ok (.eof, [])
  | c :: rest =>
      if c = '\'' ∨ c = '"' then
        let (v, r) := readStringLit c rest
        .ok (.str (String.mk v), r)
      else if isDigitCh c then
        let ds := (c :: rest).takeWhile (fun x => isDigitCh x || x = '.')
        .ok (.num (String.mk ds), (c :: rest).drop ds.length)
      else if isIdentStart c then
        let ds := (c :: rest).takeWhile isIdentCont
        .ok (.ident (String.mk ds), (c :: rest).drop ds.length)
      else if c = ':' then
        let ds := rest.takeWhile isIdentCont
        .ok (.paramNamed (String.mk ds), rest.drop ds.length)
      else if c = '?' then .ok (.paramPos, rest)
      else
        let two := String.mk (c :: rest.take 1)
        if twoCharOps.contains two then .ok (.op two, rest.drop 1)
        else if singleOps.contains c then .ok (.op (String.mk [c]), rest)
        else .error ("Unexpected character: " ++ String.mk [c])

/-- Parser helper mirroring `_eatOp`: consume the next token when it is
the given operator, report whether it was consumed. -/
def eatOpT (v : String) (s : List Char) : Except String (Option (List Char)) := do
  let (t, r) ← tokNext s
  match t with
  | .op w => if w = v then .ok (some r) else .ok none
  | _ => .ok none

/-- Parser helper mirroring `_expectOp`. -/
def expectOpT (v : String) (s : List Char) : Except String (List Char) := do
  let (t, r) ← tokNext s
  match t with
  | .op w => if w = v then .ok r else .error ("Expected " ++ v)
  | _ => .error ("Expected " ++ v)

/-- Parser helper mirroring `_expectIdent`. -/
def expectIdentT (s : List Char) : Except String (String × List Char) := do
  let (t, r) ← tokNext s
  match t with
  | .ident v => .ok (v, r)
  | _ => .error "Expected identifier"

/-- Parser helper mirroring `_eatKW` (case-insensitive keyword
match). -/
def eatKWT (kw : String) (s : List Char) : Except String (Option (List Char)) := do
  let (t, r) ← tokNext s
  match t with
  | .ident v => if jsToUpper v = jsToUpper kw then .ok (some r) else .ok none
  | _ => .ok none

/-- Parser helper mirroring `_expectKW`. -/
def expectKWT (kw : String) (s : List Char) : Except String (List Char) := do
  let (v, r) ← expectIdentT s
  if jsToUpper v = jsToUpper kw then .ok r else .error ("Expected " ++ kw)

mutual
/-- Mirrors `Parser.parseExpr`.  All parser functions carry a fuel
argument for termination; on any actual statement a fuel of the input
length plus a constant suffices, and the theorems below either
quantify over the fuel or use a concrete sufficient value. -/
def parseExprF : Nat → List Char → Except String (SqlExpr × List Char)
  | 0, _ => .error "parser fuel exhausted"
  | fuel + 1, s => parseOrF fuel s

/-- Mirrors `Parser.parseOr`. -/
def parseOrF : Nat → List Char → Except String (SqlExpr × List Char)
  | 0, _ => .error "parser fuel exhausted"
  | fuel + 1, s => do
      let (l, s1) ← parseAndF fuel s
      parseOrLoopF fuel l s1

/-- The while-loop of `parseOr`. -/
def parseOrLoopF : Nat → SqlExpr → List Char → Except String (SqlExpr × List Char)
  | 0, _, _ => .error "parser fuel exhausted"
  | fuel + 1, l, s => do
      match ← eatKWT "OR" s with
      | some s1 => do
          let (r, s2) ← parseAndF fuel s1
          parseOrLoopF fuel (.binary "OR" l r) s2
      | none => .ok (l, s)

/-- Mirrors `Parser.parseAnd`. -/
def parseAndF : Nat → List Char → Except String (SqlExpr × List Char)
  | 0, _ => .error "parser fuel exhausted"
  | fuel + 1, s => do
      let (l, s1) ← parseNotF fuel s
      parseAndLoopF fuel l s1

/-- The while-loop of `parseAnd`. -/
def parseAndLoopF : Nat → SqlExpr → List Char → Except String (SqlExpr × List Char)
  | 0, _, _ => .error "parser fuel exhausted"
  | fuel + 1, l, s => do
      match ← eatKWT "AND" s with
      | some s1 => do
          let (r, s2) ← parseNotF fuel s1
          parseAndLoopF fuel (.binary "AND" l r) s2
      | none => .ok (l, s)

/-- Mirrors `Parser.parseNot`. -/
def parseNotF : Nat → List Char → Except String (SqlExpr × List Char)
  | 0, _ => .error "parser fuel exhausted"
  | fuel + 1, s => do
      match ← eatKWT "NOT" s with
      | some s1 => do
          let (e, s2) ← parseComparisonF fuel s1
          .ok (.unary "NOT" e, s2)
      | none => parseComparisonF fuel s

/-- Mirrors `Parser.parseComparison`, including the keyword-driven
IS/IN/BETWEEN/LIKE forms. -/
def parseComparisonF : Nat → List Char → Except String (SqlExpr × List Char)
  | 0, _ => .error "parser fuel exhausted"
  | fuel + 1, s => do
      let (l, s1) ← parseAddF fuel s
      let (t, r) ← tokNext s1
      match t with
      | .ident v =>
          let kw := jsToUpper v
          if kw = "IS" then do
            match ← eatKWT "NOT" r with
            | some r1 => do
                let r2 ← expectKWT "NULL" r1
                .ok (.binary "IS NOT" l .isNullKind, r2)
            | none => do
                let r2 ← expectKWT "NULL" r
                .ok (.binary "IS" l .isNullKind, r2)
          else if kw = "IN" then do
            let r1 ← expectOpT "(" r
            match ← eatOpT ")" r1 with
            | some r2 => .ok (.binary "IN" l (.arrayLit []), r2)
            | none => do
                let (vs, r2) ← parseInValsF fuel r1
                let r3 ← expectOpT ")" r2
                .ok (.binary "IN" l (.arrayLit vs), r3)
          else if kw = "BETWEEN" then do
            let (fromV, r1) ← parseValueF fuel r
            let r2 ← expectKWT "AND" r1
            let (toV, r3) ← parseValueF fuel r2
            .ok (.binary "BETWEEN" l (.betweenR fromV toV), r3)
          else if kw = "LIKE" then do
            let (pat, r1) ← parseValueF fuel r
            .ok (.binary "LIKE" l pat, r1)
          else parseCompOpF fuel l s1
      | _ => parseCompOpF fuel l s1

/-- The trailing comparison-operator step of `parseComparison`. -/
def parseCompOpF : Nat → SqlExpr → List Char → Except String (SqlExpr × List Char)
  | 0, _, _ => .error "parser fuel exhausted"
  | fuel + 1, l, s => do
      let (t, r) ← tokNext s
      match t with
      | .op v =>
          if ["=", "!=", "<>", ">", ">=", "<", "<="].contains v then do
            let (rth, s2) ← parseAddF fuel r
            .ok (.binary v l rth, s2)
          else .ok (l, s)
      | _ => .ok (l, s)

/-- The do-while loop collecting IN list values. -/
def parseInValsF : Nat → List Char → Except String (List SqlExpr × List Char)
  | 0, _ => .error "parser fuel exhausted"
  | fuel + 1, s => do
      let (v, s1) ← parseValueF fuel s
      match ← eatOpT "," s1 with
      | some s2 => do
          let (vs, s3) ← parseInValsF fuel s2
          .ok (v :: vs, s3)
      | none => .ok ([v], s1)

/-- Mirrors `Parser.parseAdd`. -/
def parseAddF : Nat → List Char → Except String (SqlExpr × List Char)
  | 0, _ => .error "parser fuel exhausted"
  | fuel + 1, s => do
      let (l, s1) ← parseMulF fuel s
      parseAddLoopF fuel l s1

/-- The while-loop of `parseAdd`. -/
def parseAddLoopF : Nat → SqlExpr → List Char → Except String (SqlExpr × List Char)
  | 0, _, _ => .error "parser fuel exhausted"
  | fuel + 1, l, s => do
      let (t, r) ← tokNext s
      match t with
      | .op v =>
          if v = "+" ∨ v = "-" then do
            let (rv, s2) ← parseMulF fuel r
            parseAddLoopF fuel (.binary v l rv) s2
          else .ok (l, s)
      | _ => .ok (l, s)

/-- Mirrors `Parser.parseMul`. -/
def parseMulF : Nat → List Char → Except String (SqlExpr × List Char)
  | 0, _ => .error "parser fuel exhausted"
  | fuel + 1, s => do
      let (l, s1) ← parseUnaryF fuel s
      parseMulLoopF fuel l s1

/-- The while-loop of `parseMul`. -/
def parseMulLoopF : Nat → SqlExpr → List Char → Except String (SqlExpr × List Char)
  | 0, _, _ => .error "parser fuel exhausted"
  | fuel + 1, l, s => do
      let (t, r) ← tokNext s
      match t with
      | .op v =>
          if v = "*" ∨ v = "/" then do
            let (rv, s2) ← parseUnaryF fuel r
            parseMulLoopF fuel (.binary v l rv) s2
          else .ok (l, s)
      | _ => .ok (l, s)

/-- Mirrors `Parser.parseUnary`: a minus prefix wraps the primary in a
Call node named NEG. -/
def parseUnaryF : Nat → List Char → Except String (SqlExpr × List Char)
  | 0, _ => .error "parser fuel exhausted"
  | fuel + 1, s => do
      match ← eatOpT "-" s with
      | some s1 => do
          let (x, s2) ← parsePrimaryF fuel s1
          .ok (.call "NEG" [x], s2)
      | none => parsePrimaryF fuel s

/-- Mirrors `Parser.parsePrimary`. -/
def parsePrimaryF : Nat → List Char → Except String (SqlExpr × List Char)
  | 0, _ => .error "parser fuel exhausted"
  | fuel + 1, s => do
      let (t, r) ← tokNext s
      match t with
      | .num v => .ok (.num (jsNumberOfString v.data), r)
      | .str v => .ok (.str v, r)
      | .paramPos => .ok (.paramPos, r)
      | .paramNamed n => .ok (.paramNamed n, r)
      | .ident id =>
          let up := jsToUpper id
          if up = "NULL" then .ok (.null, r)
          else if up = "TRUE" then .ok (.bool true, r)
          else if up = "FALSE" then .ok (.bool false, r)
          else do
            match ← eatOpT "(" r with
            | some r1 => do
                match ← eatOpT ")" r1 with
                | some r2 => .ok (.call id [], r2)
                | none => do
                    let (args, r2) ← parseArgsF fuel r1
                    let r3 ← expectOpT ")" r2
                    .ok (.call id args, r3)
            | none => do
                match ← eatOpT "." r with
                | some r1 => do
                    let (id2, r2) ← expectIdentT r1
                    .ok (.field (some id) id2, r2)
                | none => .ok (.field none id, r)
      | .op v =>
          if v = "(" then do
            let (e, r1) ← parseExprF fuel r
            let r2 ← expectOpT ")" r1
            .ok (e, r2)
          else if v = "*" then .ok (.all, r)
          else .error "Unexpected token in expression"
      | .eof => .error "Unexpected token in expression"

/-- The do-while loop collecting function-call arguments. -/
def parseArgsF : Nat → List Char → Except String (List SqlExpr × List Char)
  | 0, _ => .error "parser fuel exhausted"
  | fuel + 1, s => do
      let (e, s1) ← parseExprF fuel s
      match ← eatOpT "," s1 with
      | some s2 => do
          let (es, s3) ← parseArgsF fuel s2
          .ok (e :: es, s3)
      | none => .ok ([e], s1)

/-- Mirrors `Parser.parseValue` (an alias of `parsePrimary`). -/
def parseValueF : Nat → List Char → Except String (SqlExpr × List Char)
  | 0, _ => .error "parser fuel exhausted"
  | fuel + 1, s => parsePrimaryF fuel s
end

/-- Whether a value is the null value. -/
def MVal.isNull : MVal → Bool
  | .mnull => true
  | _ => false

/-- Classifies a stage by kind, for stating the pipeline stage order:
match 0, lookup 1, unwind 2, group 3, project 4, sort 5, skip 6,
limit 7. -/
def stageKind : Stage → Nat
  | .smatch _ => 0
  | .lookup _ _ _ _ => 1
  | .unwind _ _ => 2
  | .group _ _ => 3
  | .project _ => 4
  | .sort _ => 5
  | .skip _ => 6
  | .limit _ => 7

/-- The stage-kind sequence the specification prescribes for a SELECT:
an optional WHERE match, a lookup-unwind pair per join, the group block
(group stage, optional HAVING match, re-projection) or the optional
simple projection, an optional sort, then skip and limit, each guarded
by presence and finiteness. -/
def specStageKinds (ast : SelectAst) : List Nat :=
  (if ast.where_.isSome then [0] else []) ++
  ast.joins.flatMap (fun _ => [1, 2]) ++
  (if ast.groupBy.isEmpty then (if wildcardOnly ast.columns then [] else [4])
   else [3] ++ (if ast.having.isSome then [0] else []) ++ [4]) ++
  (if ast.orderBy.isEmpty then [] else [5]) ++
  (match ast.offset with | some n => if n.isFinite then [6] else [] | none => []) ++
  (match ast.limit with | some n => if n.isFinite then [7] else [] | none => [])

mutual
/-- Whether an expression contains a Call node named NEG (the node the
parser produces for unary minus). -/
def containsNEG : SqlExpr → Bool
  | .call n args => jsToUpper n == "NEG" || containsNEGList args
  | .binary _ l r => containsNEG l || containsNEG r
  | .unary _ e => containsNEG e
  | .arrayLit vs => containsNEGList vs
  | .betweenR f t => containsNEG f || containsNEG t
  | _ => false

/-- List version of `containsNEG`. -/
def containsNEGList : List SqlExpr → Bool
  | [] => false
  | e :: es => containsNEG e || containsNEGList es
end

/-- Whether a computation failed. -/
def isErrE : Except String α → Bool
  | .error _ => true
  | .ok _ => false

/-- A one-table registry used by the concrete statements below. -/
def regT : Registry := [("t", "tc")]

/-- An empty binder. -/
def binder0 : ParamBinder := ⟨[], [], 0⟩

/-- The AST of `SELECT COALESCE(a, ?) AS x FROM t WHERE b = ?`: the
first positional marker in source order sits in the select list, the
second in the WHERE clause. -/
def astC1 : SelectAst :=
  { columns := [⟨.call "COALESCE" [.field none "a", .paramPos], some "x"⟩],
    from_ := ⟨"t", none⟩, joins := [],
    where_ := some (.binary "=" (.field none "b") .paramPos),
    groupBy := [], having := none, orderBy := [], limit := none, offset := none }

/-- The AST of `SELECT g, COUNT(*) AS c FROM t GROUP BY g HAVING z > 3`
for a given HAVING field name `z`: the HAVING clause references a field
that is neither in the GROUP BY list nor an aggregate alias when `z` is
neither g nor c. -/
def astC3 (z : String) : SelectAst :=
  { columns := [⟨.field none "g", none⟩, ⟨.call "COUNT" [.all], some "c"⟩],
    from_ := ⟨"t", none⟩, joins := [],
    where_ := none,
    groupBy := [.field none "g"],
    having := some (.binary ">" (.field none z) (.num (.fin 3))),
    orderBy := [], limit := none, offset := none }

/-- The AST of `SELECT * FROM t LIMIT 1.5`: the parsed limit is the
finite non-integer 3/2. -/
def astC2 : SelectAst :=
  { columns := [⟨.all, none⟩],
    from_ := ⟨"t", none⟩, joins := [], where_ := none, groupBy := [], having := none,
    orderBy := [], limit := some (.fin (3 / 2)), offset := none }

def regW : Registry := [("t", "tc"), ("u", "uc")]

def astW : SelectAst :=
  { columns := [⟨.field none "g", none⟩, ⟨.call "COUNT" [.all], some "c"⟩],
    from_ := ⟨"t", none⟩,
    joins := [⟨"LEFT", ⟨"u", some "o"⟩, .binary "=" (.field (some "o") "k") (.field (some "t") "g")⟩],
    where_ := some (.binary "=" (.field none "w") (.num (.fin 1))),
    groupBy := [.field none "g"],
    having := some (.binary ">" (.call "COUNT" []) (.num (.fin 0))),
    orderBy := [(.field none "g", "ASC")],
    limit := some (.fin 2), offset := some (.fin 1) }


/-- Extraction of the pipeline the witness SELECT compiles to. -/
def pipeW : List Stage :=
  match execSelect regW buildBuiltinFunctions astW binder0 with
  | .ok (_, p, _) => p
  | .error _ => []

/-- Extraction of the final binder of the witness compilation. -/
def bindW : ParamBinder :=
  match execSelect regW buildBuiltinFunctions astW binder0 with
  | .ok (_, _, b) => b
  | .error _ => binder0


mutual
theorem MVal.beq_refl : (v : MVal) → MVal.beq v v = true
  | .mnull => rfl
  | .mbool b => by simp [MVal.beq]
  | .mnum n => by simp [MVal.beq]
  | .mstr s => by simp [MVal.beq]
  | .marr xs => by simpa [MVal.beq] using MVal.beqList_refl xs
  | .mdoc xs => by simpa [MVal.beq] using MVal.beqKV_refl xs

theorem MVal.beqList_refl : (xs : List MVal) → MVal.beqList xs xs = true
  | [] => rfl
  | x :: xs => by
    simp only [MVal.beqList, Bool.and_eq_true]
    exact ⟨MVal.beq_refl x, MVal.beqList_refl xs⟩

theorem MVal.beqKV_refl : (xs : List (String × MVal)) → MVal.beqKV xs xs = true
  | [] => rfl
  | (k, x) :: xs => by
    simp only [MVal.beqKV, Bool.and_eq_true]
    exact ⟨⟨by simp, MVal.beq_refl x⟩, MVal.beqKV_refl xs⟩
end

theorem MVal.mleq_refl (v : MVal) : MVal.mleq v v = true := by
  simp [MVal.mleq, MVal.beq_refl]

theorem matchAtoms_star_all : ∀ l : List Char, matchAtoms [.starAny] l = true := by
  intro l
  induction l with
  | nil => simp [matchAtoms]
  | cons d ds ih => simp [matchAtoms, ih]

theorem matchAtoms_litstar (c : Char) :
    ∀ l : List Char, matchAtoms [.lit c, .starAny] l = true ↔ ∃ d ds, l = d :: ds ∧ d = c := by
  intro l
  cases l with
  | nil => simp [matchAtoms]
  | cons d ds =>
      simp only [matchAtoms, matchAtoms_star_all, Bool.and_true, beq_iff_eq]
      constructor
      · intro h; exact ⟨d, ds, rfl, h.symm⟩
      · rintro ⟨d', ds', heq, hd⟩; cases heq; exact hd.symm

theorem matchAtoms_litdotlit (a b : Char) :
    ∀ l : List Char, matchAtoms [.lit a, .dotAny, .lit b] l = true ↔
      ∃ x y z, l = [x, y, z] ∧ x = a ∧ z = b := by
  intro l
  match l with
  | [] => simp [matchAtoms]
  | [x] => simp [matchAtoms]
  | [x, y] => simp [matchAtoms]
  | [x, y, z] =>
      simp only [matchAtoms, Bool.and_true, Bool.and_eq_true, beq_iff_eq]
      constructor
      · rintro ⟨hx, hz⟩; exact ⟨x, y, z, rfl, hx.symm, hz.symm⟩
      · rintro ⟨x', y', z', heq, hx, hz⟩
        cases heq; exact ⟨hx.symm, hz.symm⟩
  | x :: y :: z :: w :: rest =>
      simp only [matchAtoms, Bool.and_eq_true, beq_iff_eq]
      constructor
      · rintro ⟨_, _, h⟩; exact absurd h (by simp [matchAtoms])
      · rintro ⟨x', y', z', heq, _, _⟩; simp at heq

/-- C4: a WHERE predicate `field LIKE p` with a literal pattern lowers
to a case-insensitive regular-expression filter on the qualified field
path, built by escaping the regex metacharacters of p, substituting
percent with dot-star and underscore with dot, and anchoring at both
ends; under the matching model, the pattern for `A%` accepts exactly
the strings whose first character lowercases to a (the strings starting
with A, up to the declared case-insensitivity), and the pattern for
`A_B` accepts exactly the three-character strings whose first and last
characters lowercase to a and b. -/
theorem c4_like_regex :
    (∀ (ft : Option String) (key p tbl : String) (b : ParamBinder),
      buildMatchE (.binary "LIKE" (.field ft key) (.str p)) b tbl =
        .ok (.regexF (qualifyPath ft key tbl) (likeToRegex p), b)) ∧
    (∀ p : String, likeToRegex p =
      { pat := String.mk ('^' :: (replaceUnderscore (replacePercent (escapeRegexChars p.data)) ++ ['$'])),
        opts := "i" }) ∧
    (∀ s : String, regexAccepts (likeToRegex "A%") s = true ↔
      ∃ c cs, s.data = c :: cs ∧ c.toLower = 'a') ∧
    (∀ s : String, regexAccepts (likeToRegex "A_B") s = true ↔
      ∃ x y z, s.data = [x, y, z] ∧ x.toLower = 'a' ∧ z.toLower = 'b') := by
  refine ⟨fun ft key p tbl b => rfl, fun p => rfl, fun s => ?_, fun s => ?_⟩
  · have hred : regexAccepts (likeToRegex "A%") s =
        matchAtoms [.lit 'a', .starAny] (s.data.map Char.toLower) := rfl
    rw [hred, matchAtoms_litstar]
    constructor
    · rintro ⟨d, ds, hmap, hd⟩
      cases hs : s.data with
      | nil => rw [hs] at hmap; simp at hmap
      | cons c cs =>
          rw [hs] at hmap
          simp only [List.map_cons, List.cons.injEq] at hmap
          exact ⟨c, cs, rfl, hmap.1 ▸ hd⟩
    · rintro ⟨c, cs, hs, hc⟩
      exact ⟨c.toLower, cs.map Char.toLower, by rw [hs]; simp, hc⟩
  · have hred : regexAccepts (likeToRegex "A_B") s =
        matchAtoms [.lit 'a', .dotAny, .lit 'b'] (s.data.map Char.toLower) := rfl
    rw [hred, matchAtoms_litdotlit]
    constructor
    · rintro ⟨x, y, z, hmap, hx, hz⟩
      match hs : s.data with
      | [] => rw [hs] at hmap; simp at hmap
      | [c] => rw [hs] at hmap; simp at hmap
      | [c, d] => rw [hs] at hmap; simp at hmap
      | [c, d, e] =>
          rw [hs] at hmap
          simp only [List.map_cons, List.map_nil, List.cons.injEq, and_true] at hmap
          exact ⟨c, d, e, rfl, hmap.1 ▸ hx, hmap.2.2 ▸ hz⟩
      | c :: d :: e :: f :: rest => rw [hs] at hmap; simp at hmap
    · rintro ⟨x, y, z, hs, hx, hz⟩
      exact ⟨x.toLower, y.toLower, z.toLower, by rw [hs]; simp, hx, hz⟩

theorem mlt_null_iff_not_null (v : MVal) : MVal.mlt .mnull v = !v.isNull := by
  cases v <;> rfl

/-- C5: in a grouped SELECT, `COUNT(*)` and COUNT with a missing
argument compile to the unconditional sum of 1, while `COUNT(field)`
compiles to a sum of a conditional that is 1 exactly when the compiled
field expression is greater than null; under the store model the
per-document increment of the former is always 1, that of the latter is
0 exactly on documents whose field value is null, so the two counts
differ exactly on those documents. -/
theorem c5_count_semantics :
    (∀ (main : TableRef) (joins : List JoinClause) (b : ParamBinder),
      toMongoAgg (.call "COUNT" [.all]) main joins b = .ok (.asum (.lit (jnum 1)), b) ∧
      toMongoAgg (.call "COUNT" []) main joins b = .ok (.asum (.lit (jnum 1)), b)) ∧
    (∀ (main : TableRef) (joins : List JoinClause) (b : ParamBinder) (ft : Option String) (fn : String),
      toMongoAgg (.call "COUNT" [.field ft fn]) main joins b =
        .ok (.asum (.condE (.gtE (.fieldPath (qualifyPath ft fn (jsOr main.alias_ main.name))) (.lit .mnull))
          (.lit (jnum 1)) (.lit (jnum 0))), b)) ∧
    (∀ (p : String) (d : MDoc),
      aggIncr (.asum (.lit (jnum 1))) d = jnum 1 ∧
      aggIncr (.asum (.condE (.gtE (.fieldPath p) (.lit .mnull)) (.lit (jnum 1)) (.lit (jnum 0)))) d
        = (if (docGet d p).isNull then jnum 0 else jnum 1) ∧
      (aggIncr (.asum (.lit (jnum 1))) d ≠
        aggIncr (.asum (.condE (.gtE (.fieldPath p) (.lit .mnull)) (.lit (jnum 1)) (.lit (jnum 0)))) d
        ↔ docGet d p = .mnull)) := by
  refine ⟨fun main joins b => ⟨rfl, rfl⟩, fun main joins b ft fn => rfl, fun p d => ?_⟩
  have hincr : aggIncr (.asum (.condE (.gtE (.fieldPath p) (.lit .mnull)) (.lit (jnum 1)) (.lit (jnum 0)))) d
      = (if (docGet d p).isNull then jnum 0 else jnum 1) := by
    show (if truthy (.mbool (MVal.mlt .mnull (docGet d p))) then jnum 1 else jnum 0)
        = (if (docGet d p).isNull then jnum 0 else jnum 1)
    rw [mlt_null_iff_not_null]
    cases hnull : (docGet d p).isNull <;> simp [truthy]
  refine ⟨rfl, hincr, ?_⟩
  rw [show aggIncr (.asum (.lit (jnum 1))) d = jnum 1 from rfl, hincr]
  cases hv : docGet d p <;>
    simp [MVal.isNull, jnum, ← hv] <;>
    simp [hv]

/-- C7 (amended): `field BETWEEN a AND b` lowers to the inclusive range
filter combining greater-or-equal on the bound value of a with
less-or-equal on the bound value of b, and a row whose field value
equals a or b satisfies the filter whenever a is at most b in the store
comparison order (for a reversed range the filter is empty and even the
boundary rows fail, see the counterexample). -/
theorem c7_between_inclusive :
    (∀ (ft : Option String) (key tbl : String) (b : ParamBinder) (qa qb : JSNumber),
      buildMatchE (.binary "BETWEEN" (.field ft key) (.betweenR (.num qa) (.num qb))) b tbl =
        .ok (.rangeF (qualifyPath ft key tbl) (.mnum qa) (.mnum qb), b)) ∧
    (∀ (k : String) (lo hi : MVal) (d : MDoc),
      MVal.mleq lo hi = true → (docGet d k = lo ∨ docGet d k = hi) →
      matchFilter (.rangeF k lo hi) d = true) := by
  refine ⟨fun ft key tbl b qa qb => rfl, fun k lo hi d hle hcase => ?_⟩
  show (MVal.mleq lo (docGet d k) && MVal.mleq (docGet d k) hi) = true
  rcases hcase with h | h <;> rw [h]
  · simp [MVal.mleq_refl, hle]
  · simp [MVal.mleq_refl, hle]

/-- Witness for C7 at a concrete inclusive range: the filter compiled
from `x BETWEEN 1 AND 2` accepts a row whose field equals the lower
bound. -/
theorem c7_between_inclusive_witness :
    matchFilter (.rangeF "t.x" (jnum 1) (jnum 2)) [("t.x", jnum 1)] = true :=
  c7_between_inclusive.2 "t.x" (jnum 1) (jnum 2) [("t.x", jnum 1)] (by decide) (Or.inl rfl)

/-- Counterexample to C7 as stated: for `x BETWEEN 5 AND 3` the claim
promises that a row whose field value equals the first bound satisfies
the compiled filter, but the row with x equal to 5 does not match. -/
theorem c7_reversed_bounds_counterexample :
    buildMatchE (.binary "BETWEEN" (.field none "x") (.betweenR (.num (.fin 5)) (.num (.fin 3))))
        ⟨[], [], 0⟩ "t" = .ok (.rangeF "t.x" (jnum 5) (jnum 3), ⟨[], [], 0⟩) ∧
    docGet [("t.x", jnum 5)] "t.x" = jnum 5 ∧
    matchFilter (.rangeF "t.x" (jnum 5) (jnum 3)) [("t.x", jnum 5)] = false :=
  ⟨rfl, rfl, by decide⟩

/-- C8: compiling a one-argument `ROUND(x)` call in a projection does
not round the compiled argument; the emitted expression rounds the
internal placeholder variable reference instead (an undefined
aggregation variable), dropping x entirely.  This demonstrates the
divergence for the code-bug verdict: the emitted expression is not the
round-of-x expression for any field path. -/
theorem c8_round_internal_placeholder :
    (∀ (main : TableRef) (joins : List JoinClause) (b : ParamBinder) (ft : Option String) (n : String),
      toMongoExpr (.call "ROUND" [.field ft n]) main joins b (some buildBuiltinFunctions) =
        .ok (.roundE (.varRef "_internal") (.lit (jnum 0)), b)) ∧
    (∀ p : String, MExpr.varRef "_internal" ≠ MExpr.fieldPath p) := by
  exact ⟨fun main joins b ft n => rfl, fun p h => by cases h⟩

/-- C1 (amended): each positional bind returns the value at the current
cursor and advances it, failing with the Not-enough-positional-params
error when the cursor has reached the end of the list; positional
markers are consumed in order of first encounter during compilation,
which for a SELECT compiles the WHERE clause before the select list —
so in `SELECT COALESCE(a, ?) AS x FROM t WHERE b = ?` the WHERE marker
receives the first supplied value and the select-list marker the
second, not the source order. -/
theorem c1_positional_binding_compilation_order :
    (∀ b : ParamBinder, ∀ h : b.posIndex < b.positional.length,
      bindValue b .paramPos =
        .ok (b.positional.get ⟨b.posIndex, h⟩, { b with posIndex := b.posIndex + 1 })) ∧
    (∀ b : ParamBinder, b.positional.length ≤ b.posIndex →
      bindValue b .paramPos = .error "Not enough positional params") ∧
    (∀ p q : MVal,
      execSelect regT buildBuiltinFunctions astC1 ⟨[], [p, q], 0⟩ =
        .ok ("tc", [Stage.smatch (.eqF "t.b" p),
                    Stage.project [("x", .ifNullE (.fieldPath "t.a") (.lit q))]],
             ⟨[], [p, q], 2⟩)) := by
  refine ⟨fun b h => ?_, fun b h => ?_, fun p q => rfl⟩
  · simp [bindValue, h]
  · simp [bindValue, Nat.not_lt.mpr h]

/-- Witness for C1: a positional bind with one supplied value and
cursor 0 returns that value and advances the cursor. -/
theorem c1_positional_binding_witness :
    bindValue ⟨[], [jnum 7], 0⟩ .paramPos = .ok (jnum 7, ⟨[], [jnum 7], 1⟩) :=
  c1_positional_binding_compilation_order.1 ⟨[], [jnum 7], 0⟩ (by decide)

/-- Counterexample to C1 as stated: in
`SELECT COALESCE(a, ?) AS x FROM t WHERE b = ?` with positional values
10 and 20, the first `?` in source order (inside COALESCE) receives 20,
the second supplied value, while the claim requires it to receive
positionalParams[0] = 10; the WHERE marker, second in source order,
receives 10. -/
theorem c1_source_order_counterexample :
    execSelect regT buildBuiltinFunctions astC1 ⟨[], [jnum 10, jnum 20], 0⟩ =
      .ok ("tc", [Stage.smatch (.eqF "t.b" (jnum 10)),
                  Stage.project [("x", .ifNullE (.fieldPath "t.a") (.lit (jnum 20)))]],
           ⟨[], [jnum 10, jnum 20], 2⟩) ∧
    MExpr.lit (jnum 20) ≠ MExpr.lit (jnum 10) := by
  refine ⟨rfl, fun h => ?_⟩
  simp only [jnum, MExpr.lit.injEq, MVal.mnum.injEq, JSNumber.fin.injEq] at h
  norm_num at h

/-- C3 (amended): compiling a HAVING comparison whose left side is a
field emits a match filter keyed by that field name with no check
against the GROUP BY keys or aggregate aliases, and the whole grouped
SELECT compiles without error even when the referenced field is
projected by neither; the resulting having stage is keyed by the
non-projected name. -/
theorem c3_having_unchecked_field :
    (∀ (ft : Option String) (n : String) (r : SqlExpr) (b b1 : ParamBinder) (v : MVal),
      bindValue b r = .ok (v, b1) →
      buildHaving (.binary ">" (.field ft n) r) b = .ok (.gtF n v, b1)) ∧
    (∀ z : String,
      execSelect regT buildBuiltinFunctions (astC3 z) binder0 =
        .ok ("tc",
          [Stage.group [("g", .fieldPath "t.g")] [("c", .asum (.lit (jnum 1)))],
           Stage.smatch (.gtF z (jnum 3)),
           Stage.project [("g", .fieldPath "_id.g"), ("c", .lit (jnum 1))]],
          binder0)) := by
  refine ⟨fun ft n r b b1 v h => ?_, fun z => rfl⟩
  simp [buildHaving, h, projectKey, Except.bind, bind, pure]

/-- Witness for C3: the generic having-lowering applied to a concrete
comparison against a literal. -/
theorem c3_having_unchecked_field_witness :
    buildHaving (.binary ">" (.field none "z") (.num (.fin 3))) binder0 =
      .ok (.gtF "z" (jnum 3), binder0) :=
  c3_having_unchecked_field.1 none "z" (.num (.fin 3)) binder0 binder0 (jnum 3) rfl

/-- Counterexample to C3 as stated: the grouped SELECT with
`HAVING z > 3`, where z is neither the group key g nor the aggregate
alias c, compiles successfully (no UnsupportedFeatureError) and its
having stage is a match keyed by the non-projected name z. -/
theorem c3_no_error_counterexample :
    execSelect regT buildBuiltinFunctions (astC3 "z") binder0 =
      .ok ("tc",
        [Stage.group [("g", .fieldPath "t.g")] [("c", .asum (.lit (jnum 1)))],
         Stage.smatch (.gtF "z" (jnum 3)),
         Stage.project [("g", .fieldPath "_id.g"), ("c", .lit (jnum 1))]],
        binder0) ∧
    ¬ ("z" = "g" ∨ "z" = "c") := ⟨rfl, by decide⟩

mutual
theorem containsNEG_fails : ∀ (e : SqlExpr), containsNEG e = true →
    ∀ (main : TableRef) (joins : List JoinClause) (b : ParamBinder),
    isErrE (toMongoExpr e main joins b (some buildBuiltinFunctions)) = true
  | .num v, h => by simp [containsNEG] at h
  | .str s, h => by simp [containsNEG] at h
  | .bool v, h => by simp [containsNEG] at h
  | .null, _ => fun main joins b => rfl
  | .paramPos, h => by simp [containsNEG] at h
  | .paramNamed n, h => by simp [containsNEG] at h
  | .field t n, h => by simp [containsNEG] at h
  | .all, h => by simp [containsNEG] at h
  | .unary op e, _ => fun main joins b => rfl
  | .arrayLit vs, _ => fun main joins b => rfl
  | .betweenR f t, _ => fun main joins b => rfl
  | .isNullKind, _ => fun main joins b => rfl
  | .call n args, h => fun main joins b => by
      simp only [containsNEG, Bool.or_eq_true, beq_iff_eq] at h
      rcases h with hn | hargs
      · have hlook : List.lookup (jsToUpper n) buildBuiltinFunctions = none := by
          rw [hn]; rfl
        simp [toMongoExpr, hlook, isErrE]
      · cases hlook : List.lookup (jsToUpper n) buildBuiltinFunctions with
        | none => simp [toMongoExpr, hlook, isErrE]
        | some fn =>
            have hlist := containsNEGList_fails args hargs main joins b
            simp only [toMongoExpr, hlook]
            cases hx : toMongoExprList args main joins b (some buildBuiltinFunctions) with
            | error e => simp [bind, Except.bind, hx, isErrE]
            | ok val => rw [hx] at hlist; simp [isErrE] at hlist
  | .binary op l r, h => fun main joins b => by
      simp only [containsNEG, Bool.or_eq_true] at h
      simp only [toMongoExpr]
      cases hl : toMongoExpr l main joins b (some buildBuiltinFunctions) with
      | error e => simp [bind, Except.bind, hl, isErrE]
      | ok lv =>
          obtain ⟨lv1, b1⟩ := lv
          rcases h with hcl | hcr
          · have := containsNEG_fails l hcl main joins b
            rw [hl] at this; simp [isErrE] at this
          · cases hr : toMongoExpr r main joins b1 (some buildBuiltinFunctions) with
            | error e => simp [bind, Except.bind, hl, hr, isErrE]
            | ok rv =>
                have := containsNEG_fails r hcr main joins b1
                rw [hr] at this; simp [isErrE] at this

theorem containsNEGList_fails : ∀ (es : List SqlExpr), containsNEGList es = true →
    ∀ (main : TableRef) (joins : List JoinClause) (b : ParamBinder),
    isErrE (toMongoExprList es main joins b (some buildBuiltinFunctions)) = true
  | [], h => by simp [containsNEGList] at h
  | e :: es, h => fun main joins b => by
      simp only [containsNEGList, Bool.or_eq_true] at h
      simp only [toMongoExprList]
      cases he : toMongoExpr e main joins b (some buildBuiltinFunctions) with
      | error err => simp [bind, Except.bind, he, isErrE]
      | ok v =>
          obtain ⟨v1, b1⟩ := v
          rcases h with hce | hces
          · have := containsNEG_fails e hce main joins b
            rw [he] at this; simp [isErrE] at this
          · have hrest := containsNEGList_fails es hces main joins b1
            cases hes : toMongoExprList es main joins b1 (some buildBuiltinFunctions) with
            | error err => simp [bind, Except.bind, he, hes, isErrE]
            | ok vs => rw [hes] at hrest; simp [isErrE] at hrest
end

/-- C9 (amended): the parser turns a unary minus into a Call node named
NEG; no builtin named NEG exists, so compiling a NEG Call itself always
fails with the Unknown-function error, and any expression containing a
unary minus never compiles successfully in a projection context — but
when another unsupported construct is evaluated first, the reported
error can differ from the Unknown-function error (see the
counterexample).  The last clause parses a concrete unary-minus
expression end to end. -/
theorem c9_unary_minus :
    (∀ (fuel : Nat) (s s1 r : List Char) (x : SqlExpr),
      tokNext s = .ok (.op "-", s1) → parsePrimaryF fuel s1 = .ok (x, r) →
      parseUnaryF (fuel + 1) s = .ok (.call "NEG" [x], r)) ∧
    (List.lookup "NEG" buildBuiltinFunctions).isNone = true ∧
    (∀ (args : List SqlExpr) (main : TableRef) (joins : List JoinClause) (b : ParamBinder),
      toMongoExpr (.call "NEG" args) main joins b (some buildBuiltinFunctions) =
        .error "Unknown function: NEG") ∧
    (∀ (e : SqlExpr) (main : TableRef) (joins : List JoinClause) (b : ParamBinder),
      containsNEG e = true →
      isErrE (toMongoExpr e main joins b (some buildBuiltinFunctions)) = true) ∧
    parseExprF 32 ("-price".data) = .ok (.call "NEG" [.field none "price"], []) := by
  refine ⟨fun fuel s s1 r x htok hprim => ?_, rfl, fun args main joins b => rfl,
    fun e main joins b h => containsNEG_fails e h main joins b, rfl⟩
  simp [parseUnaryF, eatOpT, htok, bind, Except.bind, hprim]

/-- Witness for C9: the parser clause applied at the concrete input
`-a`, producing the NEG Call around the parsed field. -/
theorem c9_unary_minus_witness :
    parseUnaryF 6 ("-a".data) = .ok (.call "NEG" [.field none "a"], []) :=
  c9_unary_minus.1 5 ("-a".data) ['a'] [] (.field none "a") rfl rfl

/-- Counterexample to C9 as stated: the expression
`COALESCE(NULL, -a)` contains a unary minus, yet compiling it fails
with the Unsupported-expression error raised for the NULL literal,
which is evaluated before the NEG call — not with an Unknown-function
error. -/
theorem c9_other_error_counterexample :
    containsNEG (.call "COALESCE" [.null, .call "NEG" [.field none "a"]]) = true ∧
    toMongoExpr (.call "COALESCE" [.null, .call "NEG" [.field none "a"]])
        ⟨"t", none⟩ [] binder0 (some buildBuiltinFunctions) =
      .error "Unsupported expression in projection: Null" ∧
    "Unsupported expression in projection: Null" ≠ "Unknown function: NEG" :=
  ⟨rfl, rfl, by decide⟩

theorem readStringLit_noCloser (q : Char) :
    ∀ tail : List Char, noCloser q tail = true → readStringLit q tail = (jsResolve tail, [])
  | [], _ => by simp [readStringLit, jsResolve]
  | c :: rest, h => by
      by_cases hc : c = '\\'
      · subst hc
        cases rest with
        | nil => simp [readStringLit, jsResolve]
        | cons e r2 =>
            have h2 : noCloser q r2 = true := by
              unfold noCloser at h
              simpa using h
            unfold readStringLit jsResolve
            simp [readStringLit_noCloser q r2 h2]
      · have h' : (c ≠ q && noCloser q rest) = true := by
          unfold noCloser at h
          simpa [hc] using h
        rw [Bool.and_eq_true] at h'
        have hq : c ≠ q := by simpa using h'.1
        unfold readStringLit jsResolve
        simp [hc, hq, readStringLit_noCloser q rest h'.2]

theorem jsResolve_eq_specResolve :
    ∀ tail : List Char, noDanglingEscape tail = true → jsResolve tail = specResolve tail
  | [], _ => rfl
  | c :: rest, h => by
      by_cases hc : c = '\\'
      · subst hc
        cases rest with
        | nil =>
            unfold noDanglingEscape at h
            simp at h
        | cons e r2 =>
            have h2 : noDanglingEscape r2 = true := by
              unfold noDanglingEscape at h
              simpa using h
            unfold jsResolve specResolve
            simp [jsResolve_eq_specResolve r2 h2]
      · have h2 : noDanglingEscape rest = true := by
          unfold noDanglingEscape at h
          simpa [hc] using h
        unfold jsResolve specResolve
        simp [hc, jsResolve_eq_specResolve rest h2]

/-- C10 (amended): reading a string literal whose closing quote never
appears raises no error: the tokenizer returns a string token whose
value is every remaining character after the opening quote with escape
markers resolved — except that an escape marker standing as the very
last character contributes the literal text undefined, from the
JavaScript coercion of the out-of-bounds read — and the subsequent
token is end-of-input. -/
theorem c10_unterminated_string :
    ∀ (q : Char) (tail : List Char),
      (q = '\'' ∨ q = '"') → noCloser q tail = true →
      tokNext (q :: tail) = .ok (.str (String.mk (jsResolve tail)), []) ∧
      tokNext ([] : List Char) = .ok (.eof, []) ∧
      (noDanglingEscape tail = true → jsResolve tail = specResolve tail) := by
  intro q tail hq hnc
  refine ⟨?_, rfl, jsResolve_eq_specResolve tail⟩
  have hread := readStringLit_noCloser q tail hnc
  rcases hq with hq | hq <;> subst hq
  · have hs : skipTrivia ('\'' :: tail) = '\'' :: tail := rfl
    unfold tokNext
    rw [hs]
    simp [hread]
  · have hs : skipTrivia ('"' :: tail) = '"' :: tail := rfl
    unfold tokNext
    rw [hs]
    simp [hread]

/-- Witness for C10: the input `'abc` (opening quote never closed)
tokenizes to a string token with value abc followed by end-of-input,
with no error. -/
theorem c10_unterminated_string_witness :
    tokNext ('\'' :: "abc".data) = .ok (.str (String.mk (jsResolve "abc".data)), []) ∧
    tokNext ([] : List Char) = .ok (.eof, []) ∧
    (noDanglingEscape "abc".data = true → jsResolve "abc".data = specResolve "abc".data) :=
  c10_unterminated_string '\'' ("abc".data) (Or.inl rfl) (by decide)

/-- Counterexample to C10 as stated: for the input consisting of an
opening quote, a, b and a final backslash, the tokenizer returns the
value abundefined (the JavaScript coercion of the out-of-bounds escape
read), not the escape-resolved remaining characters ab that the claim
prescribes. -/
theorem c10_dangling_escape_counterexample :
    tokNext ('\'' :: 'a' :: 'b' :: '\\' :: []) = .ok (.str "abundefined", []) ∧
    specResolve ('a' :: 'b' :: '\\' :: []) = "ab".data ∧
    ("abundefined" : String) ≠ "ab" :=
  ⟨rfl, rfl, by decide⟩

/-- C6: every join clause whose kind is INNER or LEFT and whose ON
predicate is an equality of two fields lowers to a lookup stage over
the registered collection of the joined table, keyed by the two field
names of the predicate (left side as the local key, right side as the
foreign key), materializing matches under the join alias, immediately
followed by an unwind of that alias whose null-and-empty preservation
flag is true exactly for LEFT joins and false exactly for INNER
joins. -/
theorem c6_join_lookup_unwind :
    ∀ (reg : Registry) (j : JoinClause) (lt rt : Option String) (ln rn coll : String),
      (j.type_ = "INNER" ∨ j.type_ = "LEFT") →
      j.onPred = .binary "=" (.field lt ln) (.field rt rn) →
      getCollection reg j.table.name = .ok coll →
      compileJoin reg j =
        .ok [Stage.lookup coll ln rn (jsOr j.table.alias_ j.table.name),
             Stage.unwind ("$" ++ jsOr j.table.alias_ j.table.name) (j.type_ == "LEFT")] := by
  intro reg j lt rt ln rn coll htype hon hcoll
  unfold compileJoin
  rw [hon]
  rcases htype with ht | ht <;> rw [ht] <;> simp [hcoll, bind, Except.bind]

/-- Witness for C6: a concrete LEFT join of orders under alias o on
`o.userId = u._id` lowers to the lookup keyed by userId and _id with a
null-preserving unwind of the alias. -/
theorem c6_join_lookup_unwind_witness :
    compileJoin [("u", "orders")]
        ⟨"LEFT", ⟨"u", some "o"⟩, .binary "=" (.field (some "o") "userId") (.field (some "u") "_id")⟩ =
      .ok [Stage.lookup "orders" "userId" "_id" "o", Stage.unwind "$o" true] := by
  have h := c6_join_lookup_unwind [("u", "orders")]
    ⟨"LEFT", ⟨"u", some "o"⟩, .binary "=" (.field (some "o") "userId") (.field (some "u") "_id")⟩
    (some "o") (some "u") "userId" "_id" "orders" (Or.inr rfl) rfl rfl
  simpa using h

theorem whereStages_kinds {w : Option SqlExpr} {b b1 : ParamBinder} {tbl : String} {ws : List Stage}
    (h : whereStages w b tbl = .ok (ws, b1)) :
    ws.map stageKind = if w.isSome then [0] else [] := by
  cases w with
  | none =>
      simp only [whereStages, Except.ok.injEq, Prod.mk.injEq] at h
      rw [← h.1]; rfl
  | some e =>
      simp only [whereStages] at h
      cases hb : buildMatchE e b tbl with
      | error err => rw [hb] at h; simp [bind, Except.bind] at h
      | ok fb =>
          rw [hb] at h
          obtain ⟨f, b'⟩ := fb
          simp only [bind, Except.bind, Except.ok.injEq, Prod.mk.injEq] at h
          rw [← h.1]; rfl

theorem compileJoin_kinds {reg : Registry} {j : JoinClause} {st : List Stage}
    (h : compileJoin reg j = .ok st) : st.map stageKind = [1, 2] := by
  unfold compileJoin at h
  split at h
  · simp at h
  · split at h
    · cases hc : getCollection reg j.table.name with
      | error e => rw [hc] at h; simp [bind, Except.bind] at h
      | ok c0 =>
          rw [hc] at h
          simp only [bind, Except.bind] at h
          split at h <;>
            · simp only [Except.ok.injEq] at h
              rw [← h]; rfl
    · simp at h

theorem compileJoins_kinds {reg : Registry} :
    ∀ {js : List JoinClause} {st : List Stage},
      compileJoins reg js = .ok st → st.map stageKind = js.flatMap (fun _ => [1, 2]) := by
  intro js
  induction js with
  | nil =>
      intro st h
      simp only [compileJoins, Except.ok.injEq] at h
      rw [← h]; rfl
  | cons j rest ih =>
      intro st h
      simp only [compileJoins] at h
      cases hj : compileJoin reg j with
      | error e => rw [hj] at h; simp [bind, Except.bind] at h
      | ok s1 =>
          rw [hj] at h
          simp only [bind, Except.bind] at h
          cases hr : compileJoins reg rest with
          | error e => rw [hr] at h; simp at h
          | ok s2 =>
              rw [hr] at h
              simp only [Except.ok.injEq] at h
              rw [← h]
              simp [List.map_append, compileJoin_kinds hj, ih hr]

theorem havingStages_kinds {hv : Option SqlExpr} {b b1 : ParamBinder} {hs : List Stage}
    (h : havingStages hv b = .ok (hs, b1)) :
    hs.map stageKind = if hv.isSome then [0] else [] := by
  cases hv with
  | none =>
      simp only [havingStages, Except.ok.injEq, Prod.mk.injEq] at h
      rw [← h.1]; rfl
  | some e =>
      simp only [havingStages] at h
      cases hb : buildHaving e b with
      | error err => rw [hb] at h; simp [bind, Except.bind] at h
      | ok fb =>
          rw [hb] at h
          obtain ⟨f, b'⟩ := fb
          simp only [bind, Except.bind, Except.ok.injEq, Prod.mk.injEq] at h
          rw [← h.1]; rfl

theorem coreStages_kinds {ast : SelectAst} {fns : FnTable} {b b1 : ParamBinder} {cs : List Stage}
    (h : coreStages ast fns b = .ok (cs, b1)) :
    cs.map stageKind =
      if ast.groupBy.isEmpty then (if wildcardOnly ast.columns then [] else [4])
      else [3] ++ (if ast.having.isSome then [0] else []) ++ [4] := by
  unfold coreStages at h
  split at h
  · rename_i hg
    split at h
    · rename_i hw
      simp only [Except.ok.injEq, Prod.mk.injEq] at h
      rw [← h.1]; simp [hg, hw]
    · rename_i hw
      cases hp : projectFields ast.from_ ast.joins fns [] ast.columns b with
      | error e => rw [hp] at h; simp [bind, Except.bind] at h
      | ok fb =>
          rw [hp] at h
          obtain ⟨fields, b'⟩ := fb
          simp only [bind, Except.bind, Except.ok.injEq, Prod.mk.injEq] at h
          rw [← h.1]; simp [hg, hw, stageKind]
  · rename_i hg
    cases hid : groupIdExpr ast.from_ ast.joins fns [] ast.groupBy b with
    | error e => rw [hid] at h; simp [bind, Except.bind] at h
    | ok p1 =>
        rw [hid] at h
        obtain ⟨idE, bA⟩ := p1
        simp only [bind, Except.bind] at h
        cases hac : groupAccums ast.from_ ast.joins [] ast.columns bA with
        | error e => rw [hac] at h; simp at h
        | ok p2 =>
            rw [hac] at h
            obtain ⟨acc, bB⟩ := p2
            simp only at h
            cases hhs : havingStages ast.having bB with
            | error e => rw [hhs] at h; simp at h
            | ok p3 =>
                rw [hhs] at h
                obtain ⟨hs, bC⟩ := p3
                simp only [Except.ok.injEq, Prod.mk.injEq] at h
                rw [← h.1]
                simp [hg, List.map_append, havingStages_kinds hhs, stageKind]

theorem sortStages_kinds (ast : SelectAst) :
    (sortStages ast).map stageKind = if ast.orderBy.isEmpty then [] else [5] := by
  unfold sortStages; split <;> rfl

theorem pageStages_kinds (ast : SelectAst) :
    (pageStages ast).map stageKind =
      (match ast.offset with | some n => if n.isFinite then [6] else [] | none => []) ++
      (match ast.limit with | some n => if n.isFinite then [7] else [] | none => []) := by
  unfold pageStages
  cases ho : ast.offset <;> cases hl : ast.limit <;>
    simp only [List.map_append] <;> congr 1 <;>
    first
      | rfl
      | (split <;> rfl)

/-- C2 (amended): whenever a SELECT compiles, the pipeline consists of
exactly the stages the specification lists, in the fixed order match
(from WHERE), lookup-unwind pair per join, group block or simple
projection, sort, skip then limit — with skip and limit each included
exactly when the corresponding value is a present finite number (the
claim said integer; a finite non-integer limit is also included, see
the counterexample). -/
theorem c2_pipeline_stage_order :
    ∀ (reg : Registry) (fns : FnTable) (ast : SelectAst) (b0 : ParamBinder)
      (coll : String) (p : List Stage) (bf : ParamBinder),
      execSelect reg fns ast b0 = .ok (coll, p, bf) →
      p.map stageKind = specStageKinds ast := by
  intro reg fns ast b0 coll p bf h
  unfold execSelect at h
  cases hc : getCollection reg ast.from_.name with
  | error e => rw [hc] at h; simp [bind, Except.bind] at h
  | ok c0 =>
      rw [hc] at h
      simp only [bind, Except.bind] at h
      cases hw : whereStages ast.where_ b0 (jsOr ast.from_.alias_ ast.from_.name) with
      | error e => rw [hw] at h; simp at h
      | ok pws =>
          rw [hw] at h
          obtain ⟨ws, b1⟩ := pws
          simp only at h
          cases hj : compileJoins reg ast.joins with
          | error e => rw [hj] at h; simp at h
          | ok js =>
              rw [hj] at h
              simp only at h
              cases hcore : coreStages ast fns b1 with
              | error e => rw [hcore] at h; simp at h
              | ok pcore =>
                  rw [hcore] at h
                  obtain ⟨core, b2⟩ := pcore
                  simp only [Except.ok.injEq, Prod.mk.injEq] at h
                  rw [← h.2.1]
                  simp only [List.map_append]
                  rw [whereStages_kinds hw, compileJoins_kinds hj, coreStages_kinds hcore,
                      sortStages_kinds, pageStages_kinds]
                  simp [specStageKinds, List.append_assoc]

/-- Witness for C2: a SELECT exercising every clause (WHERE, one LEFT
join, GROUP BY, HAVING, ORDER BY, OFFSET, LIMIT) compiles, and its
stage kinds are exactly the specified sequence. -/
theorem c2_pipeline_stage_order_witness :
    pipeW.map stageKind = specStageKinds astW :=
  c2_pipeline_stage_order regW buildBuiltinFunctions astW binder0 "tc" pipeW bindW rfl

/-- Counterexample to C2 as stated: `SELECT * FROM t LIMIT 1.5` has a
present finite limit that is not an integer, yet the compiled pipeline
contains the limit stage carrying the value 3/2 — the claim allows a
limit stage only for a present finite integer. -/
theorem c2_noninteger_limit_counterexample :
    execSelect regT buildBuiltinFunctions astC2 binder0 =
      .ok ("tc", [Stage.limit (JSNumber.fin (3 / 2))], binder0) ∧
    ¬ ∃ n : ℤ, ((3 : ℚ) / 2) = (n : ℚ) := by
  refine ⟨rfl, ?_⟩
  rintro ⟨n, hn⟩
  have h2 : (2 : ℚ) ≠ 0 := by norm_num
  have : (3 : ℚ) = (n : ℚ) * 2 := by
    field_simp at hn
    linarith
  have h3 : (3 : ℤ) = n * 2 := by exact_mod_cast this
  omega
